import Mathlib

/-!
Verification of the timer subsystem and execution/event-loop protocol of the
Javy plugin runtime.

The development shallowly embeds the Rust sources:
* `crates/javy/src/apis/timers/queue.rs` — the timer queue (`TimerQueue`),
* `crates/javy/src/apis/timers/mod.rs` — the timer runtime
  (`process_timers`, `set_timeout`, `clear_timeout`, `set_interval`,
  `clear_interval`),
* `crates/plugin-api/src/lib.rs` — the execution protocol
  (`initialize_runtime`, `handle_maybe_promise`, `ensure_pending_jobs`,
  `wait_for_completion`),
* `crates/plugin-api/src/config.rs` — the plugin configuration.

Machine integers (`u32`, `u64`) are modelled as `Nat`: the source adds a
`u32` delay to a `u64` millisecond timestamp, which cannot overflow in any
realistic execution, and the id counter is a monotone `u32` counter.  Wall
clock reads (`SystemTime::now`) become explicit `now` parameters; where the
source reads the clock twice (draining versus rescheduling in
`process_timers`), the model takes two separate instants.
-/

namespace JavyModel

/-- Callback payload of a timer: either inline source text to evaluate, or a
marker that the scheduled value is a callable stored in the guest's global
scope keyed by the timer's id (mirrors `TimerCallback` in `queue.rs`). -/
inductive TimerCallback where
  | Code (code : String)
  | Function
deriving DecidableEq, Repr

/-- One scheduled timer (mirrors `Timer` in `queue.rs`): `id : u32`,
`fire_time : u64` in milliseconds since the UNIX epoch, the callback, and
`interval_ms : Option<u32>` which is `some` exactly for repeating timers. -/
structure Timer where
  id : Nat
  fire_time : Nat
  callback : TimerCallback
  interval_ms : Option Nat
deriving DecidableEq, Repr

/-- The Rust queue stores timers in a `BinaryHeap<Timer>` whose `Ord`
instance compares `fire_time` reversed, i.e. a min-heap on `fire_time`
(tie order between equal fire times is left unspecified by the heap).  The
heap is modelled by the sorted sequence of its elements: a push is ordered
insertion by `fire_time` (placed after existing entries with an equal key),
and popping the heap's minimum is taking the head of the sequence. -/
def insertTimer (t : Timer) : List Timer → List Timer
  | [] => [t]
  | u :: us => if u.fire_time ≤ t.fire_time then u :: insertTimer t us else t :: u :: us

/-- The global timer queue (mirrors `TimerQueue` in `queue.rs`): the heap of
pending timers, modelled as its `fire_time`-sorted sequence, and the private
`next_id` counter for identifier allocation. -/
structure TimerQueue where
  timers : List Timer
  next_id : Nat
deriving DecidableEq, Repr

/-- Rust `TimerQueue::new`: empty heap, `next_id = 1`. -/
def TimerQueue.new : TimerQueue := ⟨[], 1⟩

/-- Rust `TimerQueue::add_timer(delay_ms, repeat, callback, reuse_id)`: reads the
clock (`now`, here a parameter), takes `reuse_id` as the id if given and
otherwise allocates `next_id` (post-incrementing the counter), and pushes a
timer with `fire_time = now + delay_ms` and `interval_ms = Some(delay_ms)`
exactly when `repeat` holds.  Returns the id. -/
def TimerQueue.add_timer (q : TimerQueue) (now delay_ms : Nat) (rep : Bool)
    (callback : TimerCallback) (reuse_id : Option Nat) : Nat × TimerQueue :=
  let id := reuse_id.getD q.next_id
  let next := if reuse_id.isSome then q.next_id else q.next_id + 1
  let t : Timer := ⟨id, now + delay_ms, callback, if rep then some delay_ms else none⟩
  (id, ⟨insertTimer t q.timers, next⟩)

/-- Rust `TimerQueue::remove_timer(timer_id)`: retains every timer whose id
differs from `timer_id` and reports whether the length changed. -/
def TimerQueue.remove_timer (q : TimerQueue) (timer_id : Nat) : Bool × TimerQueue :=
  let kept := q.timers.filter (fun t => t.id != timer_id)
  (kept.length != q.timers.length, ⟨kept, q.next_id⟩)

/-- Rust `TimerQueue::get_expired_timers()`: reads the clock (`now`, here a
parameter) and repeatedly pops the heap's minimum while its `fire_time`
does not exceed `now`; on the sorted-sequence model of the heap this is
`takeWhile`, the unpopped remainder being `dropWhile`. -/
def TimerQueue.get_expired_timers (q : TimerQueue) (now : Nat) : List Timer × TimerQueue :=
  (q.timers.takeWhile (fun t => decide (t.fire_time ≤ now)),
   ⟨q.timers.dropWhile (fun t => decide (t.fire_time ≤ now)), q.next_id⟩)

/-- Rust `TimerQueue::has_pending_timers()`: the heap is non-empty. -/
def TimerQueue.has_pending_timers (q : TimerQueue) : Bool :=
  !q.timers.isEmpty

/-- The heap contents are sorted (non-strictly) by `fire_time`; this is the
representation invariant of the sorted-sequence model of the binary heap. -/
def sortedByFire (ts : List Timer) : Prop :=
  ts.Pairwise (fun a b => a.fire_time ≤ b.fire_time)

instance (ts : List Timer) : Decidable (sortedByFire ts) := by
  unfold sortedByFire; infer_instance

theorem insertTimer_perm (t : Timer) (l : List Timer) :
    List.Perm (insertTimer t l) (t :: l) := by
  induction l with
  | nil => simp [insertTimer]
  | cons u us ih =>
    by_cases h : u.fire_time ≤ t.fire_time
    · simpa [insertTimer, h] using ((ih.cons u).trans (List.Perm.swap t u us))
    · simp [insertTimer, h]

theorem mem_insertTimer {a t : Timer} {l : List Timer} :
    a ∈ insertTimer t l ↔ a = t ∨ a ∈ l := by
  rw [(insertTimer_perm t l).mem_iff, List.mem_cons]

theorem insertTimer_sorted {t : Timer} {l : List Timer} (h : sortedByFire l) :
    sortedByFire (insertTimer t l) := by
  unfold sortedByFire at h ⊢
  induction l with
  | nil => simp [insertTimer]
  | cons u us ih =>
    rcases (List.pairwise_cons.mp h) with ⟨hu, hus⟩
    simp only [insertTimer]
    by_cases hle : u.fire_time ≤ t.fire_time
    · rw [if_pos hle]
      refine List.pairwise_cons.mpr ⟨?_, ih hus⟩
      intro b hb
      rcases mem_insertTimer.mp hb with rfl | hb
      · exact hle
      · exact hu b hb
    · rw [if_neg hle]
      refine List.pairwise_cons.mpr ⟨?_, h⟩
      intro b hb
      rcases List.mem_cons.mp hb with rfl | hb
      · exact Nat.le_of_lt (Nat.lt_of_not_le hle)
      · exact Nat.le_trans (Nat.le_of_lt (Nat.lt_of_not_le hle)) (hu b hb)

theorem mem_takeWhile_fire {t : Timer} {l : List Timer} {now : Nat}
    (h : t ∈ l.takeWhile (fun t => decide (t.fire_time ≤ now))) : t.fire_time ≤ now := by
  have := List.mem_takeWhile_imp h
  simpa using this

theorem mem_dropWhile_fire {t : Timer} {l : List Timer} {now : Nat}
    (hs : sortedByFire l)
    (h : t ∈ l.dropWhile (fun t => decide (t.fire_time ≤ now))) : now < t.fire_time := by
  induction l with
  | nil => simp at h
  | cons u us ih =>
    rcases List.pairwise_cons.mp hs with ⟨hu, hus⟩
    by_cases hun : u.fire_time ≤ now
    · rw [List.dropWhile_cons_of_pos (by simpa using hun)] at h
      exact ih hus h
    · rw [List.dropWhile_cons_of_neg (by simpa using hun)] at h
      rcases List.mem_cons.mp h with rfl | h
      · exact Nat.lt_of_not_le hun
      · exact Nat.lt_of_lt_of_le (Nat.lt_of_not_le hun) (hu t h)

/-- Rust `TimersRuntime::process_timers`, reschedule phase: for every drained
timer that carries an `interval_ms`, re-add it under its original id via
`add_timer(interval_ms, true, callback.clone(), Some(id))`; `add_timer`
reads the clock again, so the reschedule instant `nowResched` is a separate
parameter. -/
def rescheduleIntervals (nowResched : Nat) (expired : List Timer) (q : TimerQueue) : TimerQueue :=
  expired.foldl (fun acc t =>
    match t.interval_ms with
    | some i => (acc.add_timer nowResched i true t.callback (some t.id)).2
    | none => acc) q

/-- Rust `TimersRuntime::process_timers` (queue part): under the queue lock,
drain the expired timers at the drain instant `nowDrain`, then re-add every
drained repeating timer under its original id (the clock is re-read inside
`add_timer`, giving the reschedule instant `nowResched`); the lock is then
released and exactly the drained batch is handed to callback execution.
Returns the drained batch and the queue as it stands when callbacks run. -/
def process_timers (q : TimerQueue) (nowDrain nowResched : Nat) : List Timer × TimerQueue :=
  let r := q.get_expired_timers nowDrain
  (r.1, rescheduleIntervals nowResched r.1 r.2)

/-- Outcome of evaluating one timer callback in the engine
(`ctx.eval::<(), _>(..)` in `process_timers`): success or a thrown
exception with its message. -/
inductive EvalOutcome where
  | ok
  | err (msg : String)
deriving DecidableEq, Repr

/-- Observable events of one tick of `process_timers`: a callback
invocation (by timer id) or a line printed to the diagnostic stream
(`eprintln!`). -/
inductive TickEvent where
  | invoked (id : Nat)
  | diagnostic (msg : String)
deriving DecidableEq, Repr

/-- The eval-and-report part of the per-timer body of the execution loop
in `process_timers`: the callback is evaluated (a `Code` callback as
source text, a `Function` callback via the stored global keyed by the
timer id), and on error the message `Timer callback error: {e}` is printed
to the diagnostic stream and the loop moves on.  The evaluator `ev`
abstracts `ctx.eval`.  The loop body's subsequent cleanup step — the
fallible removal of a fired one-shot's stored slot — is modelled
separately by `cleanupResult`. -/
def runCallback (ev : Timer → EvalOutcome) (t : Timer) : List TickEvent :=
  match ev t with
  | .ok => [.invoked t.id]
  | .err m => [.invoked t.id, .diagnostic ("Timer callback error: " ++ m)]

/-- The cleanup step of the per-timer loop body
(`ctx.globals().remove(format!("__timer_callback_{}", timer.id))?` in
`timers/mod.rs`): performed only after invoking a `Function` callback of a
one-shot timer.  The oracle `rm` gives the outcome of the engine's
`remove` call on that timer's slot — `some e` when the engine raises `e`
(reachable when the guest made the slot non-configurable), in which case
the source's `?` propagates the error out of `process_timers`.  `Code`
callbacks and intervals perform no removal. -/
def cleanupResult (rm : Timer → Option String) (t : Timer) : Option String :=
  match t.callback with
  | .Code _ => none
  | .Function => if t.interval_ms.isNone then rm t else none

/-- The callback-execution loop of `process_timers`, faithful to the `?`
on the slot removal: drained timers are processed in order; an eval error
is only reported, but a failed slot removal aborts the loop — the result
is the event trace up to that point paired with the propagated error, if
any. -/
def runCallbacksE (ev : Timer → EvalOutcome) (rm : Timer → Option String) :
    List Timer → List TickEvent × Option String
  | [] => ([], none)
  | t :: ts =>
    match cleanupResult rm t with
    | some e => (runCallback ev t, some e)
    | none => (runCallback ev t ++ (runCallbacksE ev rm ts).1, (runCallbacksE ev rm ts).2)

/-- The tick's event trace on the non-aborting run of the loop (every slot
removal succeeds): the invocation order of the drained batch. -/
def runCallbacks (ev : Timer → EvalOutcome) (ts : List Timer) : List TickEvent :=
  (runCallbacksE ev (fun _ => none) ts).1

/-- Rust `TimersRuntime::process_timers` in full: drain, reschedule
intervals, release the lock, then run the drained callbacks; callback
eval errors are reported to the diagnostic stream and do not stop the
loop, but a failed removal of a fired one-shot's stored slot propagates
via `?`, making the whole function return `Err` with the remaining
drained callbacks never invoked. -/
def process_timers_run (ev : Timer → EvalOutcome) (rm : Timer → Option String)
    (q : TimerQueue) (nowDrain nowResched : Nat) :
    Except String (List TickEvent × TimerQueue) :=
  let r := process_timers q nowDrain nowResched
  match (runCallbacksE ev rm r.1).2 with
  | some e => .error e
  | none => .ok ((runCallbacksE ev rm r.1).1, r.2)

theorem rescheduleIntervals_next_id (nr : Nat) (ex : List Timer) (q : TimerQueue) :
    (rescheduleIntervals nr ex q).next_id = q.next_id := by
  induction ex generalizing q with
  | nil => rfl
  | cons t ts ih =>
    cases h : t.interval_ms with
    | none => simpa [rescheduleIntervals, h] using ih q
    | some i => simpa [rescheduleIntervals, h, TimerQueue.add_timer] using ih _

theorem mem_rescheduleIntervals {u : Timer} {nr : Nat} {ex : List Timer} {q : TimerQueue} :
    u ∈ (rescheduleIntervals nr ex q).timers ↔
      u ∈ q.timers ∨ ∃ t ∈ ex, ∃ i, t.interval_ms = some i ∧
        u = ⟨t.id, nr + i, t.callback, some i⟩ := by
  induction ex generalizing q with
  | nil => simp [rescheduleIntervals]
  | cons t ts ih =>
    cases h : t.interval_ms with
    | none =>
      rw [show rescheduleIntervals nr (t :: ts) q = rescheduleIntervals nr ts q by
        simp [rescheduleIntervals, h]]
      rw [ih]
      constructor
      · rintro (hq | hts)
        · exact Or.inl hq
        · rcases hts with ⟨s, hs, i, hi, hu⟩
          exact Or.inr ⟨s, List.mem_cons_of_mem _ hs, i, hi, hu⟩
      · rintro (hq | ⟨s, hs, i, hi, hu⟩)
        · exact Or.inl hq
        · rcases List.mem_cons.mp hs with rfl | hs
          · rw [h] at hi; cases hi
          · exact Or.inr ⟨s, hs, i, hi, hu⟩
    | some i =>
      rw [show rescheduleIntervals nr (t :: ts) q
            = rescheduleIntervals nr ts (q.add_timer nr i true t.callback (some t.id)).2 by
        simp [rescheduleIntervals, h]]
      rw [ih]
      simp only [TimerQueue.add_timer, Option.getD]
      constructor
      · rintro (hq | hts)
        · rcases mem_insertTimer.mp hq with rfl | hq
          · exact Or.inr ⟨t, List.mem_cons_self t ts, i, h, rfl⟩
          · exact Or.inl hq
        · rcases hts with ⟨s, hs, j, hj, hu⟩
          exact Or.inr ⟨s, List.mem_cons_of_mem _ hs, j, hj, hu⟩
      · rintro (hq | ⟨s, hs, j, hj, hu⟩)
        · exact Or.inl (mem_insertTimer.mpr (Or.inr hq))
        · rcases List.mem_cons.mp hs with rfl | hs
          · rw [h] at hj
            cases hj
            exact Or.inl (mem_insertTimer.mpr (Or.inl hu))
          · exact Or.inr ⟨s, hs, j, hj, hu⟩

theorem rescheduleIntervals_sorted {nr : Nat} {ex : List Timer} {q : TimerQueue}
    (hs : sortedByFire q.timers) : sortedByFire (rescheduleIntervals nr ex q).timers := by
  induction ex generalizing q with
  | nil => exact hs
  | cons t ts ih =>
    cases h : t.interval_ms with
    | none =>
      rw [show rescheduleIntervals nr (t :: ts) q = rescheduleIntervals nr ts q by
        simp [rescheduleIntervals, h]]
      exact ih hs
    | some i =>
      rw [show rescheduleIntervals nr (t :: ts) q
            = rescheduleIntervals nr ts (q.add_timer nr i true t.callback (some t.id)).2 by
        simp [rescheduleIntervals, h]]
      exact ih (insertTimer_sorted hs)

/-- Claim C7: `add(delay_ms, repeating, callback, reuse_id)` inserts a timer
with `fire_time = now + delay_ms` (so `delay_ms = 0` yields
`fire_time = now`, immediately eligible and never in the past), returns
`reuse_id` when given and the freshly allocated `next_id` otherwise, and
sets the `interval_ms` field exactly when `repeating` holds. -/
theorem add_timer_spec (q : TimerQueue) (now delay_ms : Nat) (rep : Bool)
    (cb : TimerCallback) (reuse_id : Option Nat) :
    List.Perm (q.add_timer now delay_ms rep cb reuse_id).2.timers
      ((⟨(q.add_timer now delay_ms rep cb reuse_id).1, now + delay_ms, cb,
          if rep then some delay_ms else none⟩ : Timer) :: q.timers)
    ∧ (∀ i, reuse_id = some i → (q.add_timer now delay_ms rep cb reuse_id).1 = i
        ∧ (q.add_timer now delay_ms rep cb reuse_id).2.next_id = q.next_id)
    ∧ (reuse_id = none → (q.add_timer now delay_ms rep cb reuse_id).1 = q.next_id
        ∧ (q.add_timer now delay_ms rep cb reuse_id).2.next_id = q.next_id + 1)
    ∧ (delay_ms = 0 → now + delay_ms ≤ now)
    ∧ now ≤ now + delay_ms := by
  refine ⟨insertTimer_perm _ _, ?_, ?_, ?_, Nat.le_add_right now delay_ms⟩
  · rintro i rfl
    exact ⟨rfl, rfl⟩
  · rintro rfl
    exact ⟨rfl, rfl⟩
  · rintro rfl
    exact Nat.le_refl now

/-- Witness for C7 at a concrete input: a fresh registration on a new queue
allocates id 1 and bumps the counter to 2. -/
theorem add_timer_spec_witness :
    (TimerQueue.new.add_timer 100 0 false (.Code "f()") none).1 = 1 ∧
    (TimerQueue.new.add_timer 100 0 false (.Code "f()") none).2.next_id = 2 :=
  (add_timer_spec TimerQueue.new 100 0 false (.Code "f()") none).2.2.1 rfl

/-- Claim C2: `get_expired_timers` removes and returns exactly the timers
with `fire_time ≤ now`, in ascending `fire_time` order, returning no timer
whose fire time is still in the future; across two drains at non-decreasing
instants no timer is returned twice and no expired timer is skipped; and
two timers registered at the same instant with delays `d1 < d2` are drained
at any `t ≥ now + d2` in the order (d1's timer, d2's timer). -/
theorem get_expired_timers_spec (q : TimerQueue) (now now₂ : Nat)
    (hs : sortedByFire q.timers) (h12 : now ≤ now₂) :
    (∀ t ∈ (q.get_expired_timers now).1, t.fire_time ≤ now)
    ∧ (∀ t ∈ (q.get_expired_timers now).2.timers, now < t.fire_time)
    ∧ sortedByFire (q.get_expired_timers now).1
    ∧ q.timers = (q.get_expired_timers now).1
        ++ (((q.get_expired_timers now).2.get_expired_timers now₂).1
          ++ ((q.get_expired_timers now).2.get_expired_timers now₂).2.timers)
    ∧ (∀ t ∈ ((q.get_expired_timers now).2.get_expired_timers now₂).2.timers,
        now₂ < t.fire_time)
    ∧ (∀ t ∈ q.timers, t.fire_time ≤ now₂ →
        t ∈ (q.get_expired_timers now).1
        ∨ t ∈ ((q.get_expired_timers now).2.get_expired_timers now₂).1)
    ∧ (∀ d1 d2 t0 tq cb1 cb2, d1 < d2 → t0 + d2 ≤ tq →
        ((((TimerQueue.new.add_timer t0 d1 false cb1 none).2).add_timer t0 d2 false
            cb2 none).2.get_expired_timers tq).1
          = [⟨1, t0 + d1, cb1, none⟩, ⟨2, t0 + d2, cb2, none⟩]) := by
  have hsd : sortedByFire (q.get_expired_timers now).2.timers :=
    hs.sublist (List.dropWhile_sublist _)
  have hpart : q.timers = (q.get_expired_timers now).1
      ++ (((q.get_expired_timers now).2.get_expired_timers now₂).1
        ++ ((q.get_expired_timers now).2.get_expired_timers now₂).2.timers) := by
    rw [show ((q.get_expired_timers now).2.get_expired_timers now₂).1
          ++ ((q.get_expired_timers now).2.get_expired_timers now₂).2.timers
        = (q.get_expired_timers now).2.timers from
        List.takeWhile_append_dropWhile _ _]
    exact (List.takeWhile_append_dropWhile _ _).symm
  refine ⟨fun t ht => mem_takeWhile_fire ht,
    fun t ht => mem_dropWhile_fire hs ht,
    hs.sublist (List.takeWhile_sublist _),
    hpart,
    fun t ht => mem_dropWhile_fire hsd ht,
    ?_, ?_⟩
  · intro t ht hle
    rw [hpart] at ht
    rcases List.mem_append.mp ht with h1 | h23
    · exact Or.inl h1
    rcases List.mem_append.mp h23 with h2 | h3
    · exact Or.inr h2
    · exact absurd hle (Nat.not_le_of_lt (mem_dropWhile_fire hsd h3))
  · intro d1 d2 t0 tq cb1 cb2 hd h2
    have h1 : t0 + d1 ≤ tq :=
      Nat.le_trans (Nat.add_le_add_left (Nat.le_of_lt hd) t0) h2
    have hdd : t0 + d1 ≤ t0 + d2 := Nat.add_le_add_left (Nat.le_of_lt hd) t0
    simp [TimerQueue.new, TimerQueue.add_timer, insertTimer,
      TimerQueue.get_expired_timers, hdd, h1, h2]

/-- Witness for C2 at a concrete input: delays 5 < 9 registered at instant
100 into a fresh queue are both drained at instant 200, d1's timer first. -/
theorem get_expired_timers_spec_witness :
    ((((TimerQueue.new.add_timer 100 5 false (.Code "a") none).2).add_timer 100 9 false
        (.Code "b") none).2.get_expired_timers 200).1
      = [⟨1, 105, .Code "a", none⟩, ⟨2, 109, .Code "b", none⟩] :=
  (get_expired_timers_spec TimerQueue.new 0 0 (by decide) (by decide)).2.2.2.2.2.2
    5 9 100 200 (.Code "a") (.Code "b") (by decide) (by decide)

/-- The ids of the callbacks invoked in a tick trace, in invocation order. -/
def invokedIds : List TickEvent → List Nat
  | [] => []
  | .invoked i :: es => i :: invokedIds es
  | .diagnostic _ :: es => invokedIds es

theorem invokedIds_append (a b : List TickEvent) :
    invokedIds (a ++ b) = invokedIds a ++ invokedIds b := by
  induction a with
  | nil => rfl
  | cons e es ih => cases e <;> simp [invokedIds, ih]

theorem runCallbacks_cons (ev : Timer → EvalOutcome) (t : Timer) (ts : List Timer) :
    runCallbacks ev (t :: ts) = runCallback ev t ++ runCallbacks ev ts := by
  obtain ⟨i, ft, cb, iv⟩ := t
  cases cb <;> cases iv <;> rfl

theorem invokedIds_runCallbacks (ev : Timer → EvalOutcome) (ts : List Timer) :
    invokedIds (runCallbacks ev ts) = ts.map Timer.id := by
  induction ts with
  | nil => rfl
  | cons t ts ih =>
    rw [runCallbacks_cons, invokedIds_append, ih]
    cases h : ev t <;> simp [runCallback, h, invokedIds]

/-- Claim C4: a repeating timer drained in a tick is re-added under its
original id with `fire_time = nowResched + interval`, the reschedule
instant being re-read from the clock (a separate parameter from the drain
instant); the invoked batch of the tick is exactly the pre-reschedule
drain, so the rescheduled occurrence — still queued after the tick, even
for an interval of 0 — fires only in a strictly later tick than the
occurrence that triggered it, and (for a queue with distinct ids) at most
once per tick. -/
theorem process_timers_reschedule_spec (ev : Timer → EvalOutcome) (q : TimerQueue)
    (nd nr : Nat) (t : Timer) (i : Nat)
    (ht : t ∈ (process_timers q nd nr).1) (hi : t.interval_ms = some i) :
    (⟨t.id, nr + i, t.callback, some i⟩ : Timer) ∈ (process_timers q nd nr).2.timers
    ∧ invokedIds (runCallbacks ev (process_timers q nd nr).1)
        = (q.get_expired_timers nd).1.map Timer.id
    ∧ ((q.timers.map Timer.id).Nodup → ((process_timers q nd nr).1.map Timer.id).Nodup) := by
  refine ⟨mem_rescheduleIntervals.mpr (Or.inr ⟨t, ht, i, hi, rfl⟩),
    invokedIds_runCallbacks ev _, fun hnd => ?_⟩
  exact hnd.sublist ((List.takeWhile_sublist _).map Timer.id)

/-- Witness for C4 at a concrete input: an interval timer (id 1, interval
7) due at drain instant 60 is rescheduled for instant 68 = 61 + 7 using the
re-read clock 61, under its original id. -/
theorem process_timers_reschedule_spec_witness :
    (⟨1, 68, .Code "cb", some 7⟩ : Timer) ∈
      (process_timers ⟨[⟨1, 50, .Code "cb", some 7⟩], 2⟩ 60 61).2.timers :=
  (process_timers_reschedule_spec (fun _ => .ok) ⟨[⟨1, 50, .Code "cb", some 7⟩], 2⟩ 60 61
    ⟨1, 50, .Code "cb", some 7⟩ 7 (by decide) rfl).1

/-- Claim C5, settled as a code bug at a concrete failing input: the tick
drains two one-shot timers.  Timer 1 has a `Function` callback that
throws — the exception is duly reported to the diagnostic stream — and
whose stored slot `__timer_callback_1` cannot be removed (the guest made
it non-configurable), so the `?` on `ctx.globals().remove` in
`process_timers` propagates: the function returns `Err` and timer 2's
drained callback is never invoked.  The claim — and the spec's own design
(§4.2/§7: log and continue past an individual callback failure rather
than aborting the tick) — demand that the tick continue past the failure
and `process_timers` return success. -/
theorem process_timers_abort_on_remove_failure :
    process_timers_run
        (fun t => if t.id = 1 then .err "boom" else .ok)
        (fun t => if t.id = 1 then some "could not delete property" else none)
        ⟨[⟨1, 5, .Function, none⟩, ⟨2, 6, .Code "b()", none⟩], 3⟩ 10 10
      = .error "could not delete property"
    ∧ TickEvent.diagnostic "Timer callback error: boom"
        ∈ (runCallbacksE (fun t => if t.id = 1 then .err "boom" else .ok)
            (fun t => if t.id = 1 then some "could not delete property" else none)
            (process_timers ⟨[⟨1, 5, .Function, none⟩, ⟨2, 6, .Code "b()", none⟩], 3⟩
              10 10).1).1
    ∧ TickEvent.invoked 2
        ∉ (runCallbacksE (fun t => if t.id = 1 then .err "boom" else .ok)
            (fun t => if t.id = 1 then some "could not delete property" else none)
            (process_timers ⟨[⟨1, 5, .Function, none⟩, ⟨2, 6, .Code "b()", none⟩], 3⟩
              10 10).1).1 :=
  ⟨rfl, by decide, by decide⟩

/-- The operations that touch the timer queue over a run: a fresh
registration (`setTimeout`/`setInterval` → `add_timer` with `reuse_id =
None`, the allocator path), an explicit cancellation
(`clearTimeout`/`clearInterval` → `remove_timer`), and one tick of
`process_timers` with its drain and reschedule instants. -/
inductive QueueOp where
  | register (now delay : Nat) (rep : Bool) (cb : TimerCallback)
  | clear (timer_id : Nat)
  | tick (nowDrain nowResched : Nat)
deriving DecidableEq, Repr

/-- Effect of one operation on the queue. -/
def applyOp (q : TimerQueue) : QueueOp → TimerQueue
  | .register now d rep cb => (q.add_timer now d rep cb none).2
  | .clear i => (q.remove_timer i).2
  | .tick nd nr => (process_timers q nd nr).2

/-- Effect of a run of operations on the queue. -/
def applyOps (q : TimerQueue) : List QueueOp → TimerQueue
  | [] => q
  | op :: ops => applyOps (applyOp q op) ops

/-- The ids of the timers fired by the ticks along a run of operations. -/
def firedIds (q : TimerQueue) : List QueueOp → List Nat
  | [] => []
  | op :: ops =>
    (match op with
     | .tick nd _ => (q.get_expired_timers nd).1.map Timer.id
     | _ => []) ++ firedIds (applyOp q op) ops

/-- Id `i` is absent from the queue and below the allocator counter: no
queued timer carries it and the allocator can never hand it out again. -/
def idAbsent (i : Nat) (q : TimerQueue) : Prop :=
  (∀ t ∈ q.timers, t.id ≠ i) ∧ i < q.next_id

instance (i : Nat) (q : TimerQueue) : Decidable (idAbsent i q) := by
  unfold idAbsent; infer_instance

theorem process_timers_next_id (q : TimerQueue) (nd nr : Nat) :
    (process_timers q nd nr).2.next_id = q.next_id := by
  simp [process_timers, rescheduleIntervals_next_id, TimerQueue.get_expired_timers]

theorem idAbsent_applyOp {i : Nat} {q : TimerQueue} (h : idAbsent i q) (op : QueueOp) :
    idAbsent i (applyOp q op) := by
  obtain ⟨hmem, hlt⟩ := h
  cases op with
  | register now d rep cb =>
    refine ⟨fun t ht => ?_, Nat.lt_succ_of_lt hlt⟩
    rcases mem_insertTimer.mp ht with rfl | ht
    · exact Nat.ne_of_gt hlt
    · exact hmem t ht
  | clear j =>
    exact ⟨fun t ht => hmem t (List.mem_of_mem_filter ht), hlt⟩
  | tick nd nr =>
    refine ⟨fun u hu => ?_, by simpa [applyOp, process_timers_next_id] using hlt⟩
    rcases mem_rescheduleIntervals.mp hu with hrest | ⟨t, htex, j, hj, rfl⟩
    · exact hmem u ((List.dropWhile_sublist _).subset hrest)
    · exact hmem t ((List.takeWhile_sublist _).subset htex)

theorem idAbsent_not_fired {i : Nat} {q : TimerQueue} (h : idAbsent i q)
    (ops : List QueueOp) : i ∉ firedIds q ops := by
  induction ops generalizing q with
  | nil => simp [firedIds]
  | cons op ops ih =>
    intro hmem
    cases op with
    | tick nd nr =>
      rw [show firedIds q (.tick nd nr :: ops)
            = (q.get_expired_timers nd).1.map Timer.id
              ++ firedIds (applyOp q (.tick nd nr)) ops from rfl] at hmem
      rcases List.mem_append.mp hmem with hop | hrec
      · rcases List.mem_map.mp hop with ⟨t, ht, hid⟩
        exact h.1 t ((List.takeWhile_sublist _).subset ht) hid
      · exact ih (idAbsent_applyOp h _) hrec
    | register now d rep cb =>
      rw [show firedIds q (.register now d rep cb :: ops)
            = [] ++ firedIds (applyOp q (.register now d rep cb)) ops from rfl,
          List.nil_append] at hmem
      exact ih (idAbsent_applyOp h _) hmem
    | clear j =>
      rw [show firedIds q (.clear j :: ops)
            = [] ++ firedIds (applyOp q (.clear j)) ops from rfl,
          List.nil_append] at hmem
      exact ih (idAbsent_applyOp h _) hmem

/-- Claim C6: when a repeating timer's own callback calls `clearInterval`
with the timer's id during the tick that fired it, `remove_timer` deletes
every queue entry with that id — in particular the reschedule inserted
earlier in the same tick — leaving the id absent, and no later run of
registrations, cancellations and ticks ever fires that id again. -/
theorem clear_interval_in_callback_stops_interval (q : TimerQueue) (nd nr : Nat)
    (t : Timer) (ht : t ∈ (process_timers q nd nr).1) (hrep : t.interval_ms.isSome)
    (hid : t.id < q.next_id) (ops : List QueueOp) :
    idAbsent t.id (((process_timers q nd nr).2.remove_timer t.id).2)
    ∧ t.id ∉ firedIds (((process_timers q nd nr).2.remove_timer t.id).2) ops := by
  have habs : idAbsent t.id (((process_timers q nd nr).2.remove_timer t.id).2) := by
    constructor
    · intro u hu
      have := (List.mem_filter.mp hu).2
      simpa [bne_iff_ne] using this
    · simpa [TimerQueue.remove_timer, process_timers_next_id] using hid
  exact ⟨habs, idAbsent_not_fired habs ops⟩

/-- Witness for C6 at a concrete input: a zero-interval timer (id 1) fires
at its registration instant, its callback clears it mid-tick, and three
later ticks interleaved with a fresh registration never fire id 1 again. -/
theorem clear_interval_in_callback_stops_interval_witness :
    (1 : Nat) ∉ firedIds
      (((process_timers (⟨[⟨1, 5, .Code "c()", some 0⟩], 2⟩ : TimerQueue) 5 5).2.remove_timer 1).2)
      [.tick 6 6, .register 7 0 false (.Code "x()"), .tick 8 8, .tick 9 9] :=
  (clear_interval_in_callback_stops_interval ⟨[⟨1, 5, .Code "c()", some 0⟩], 2⟩ 5 5
    ⟨1, 5, .Code "c()", some 0⟩ (by decide) (by decide) (by decide)
    [.tick 6 6, .register 7 0 false (.Code "x()"), .tick 8 8, .tick 9 9]).2

/-- Well-formedness of the queue: every queued id is a positive integer
strictly below the allocator counter, queued ids are pairwise distinct, and
the counter is at least its initial value 1. -/
def QueueWF (q : TimerQueue) : Prop :=
  (∀ t ∈ q.timers, 0 < t.id ∧ t.id < q.next_id)
  ∧ (q.timers.map Timer.id).Nodup
  ∧ 1 ≤ q.next_id

instance (q : TimerQueue) : Decidable (QueueWF q) := by
  unfold QueueWF; infer_instance

theorem rescheduleIntervals_wf {nr : Nat} {ex : List Timer} {q : TimerQueue}
    (hnd : (q.timers.map Timer.id).Nodup)
    (hexnd : (ex.map Timer.id).Nodup)
    (hdisj : ∀ t ∈ ex, ∀ u ∈ q.timers, t.id ≠ u.id)
    (hexb : ∀ t ∈ ex, 0 < t.id ∧ t.id < q.next_id)
    (hqb : ∀ u ∈ q.timers, 0 < u.id ∧ u.id < q.next_id) :
    ((rescheduleIntervals nr ex q).timers.map Timer.id).Nodup
    ∧ (∀ u ∈ (rescheduleIntervals nr ex q).timers, 0 < u.id ∧ u.id < q.next_id) := by
  induction ex generalizing q with
  | nil => exact ⟨hnd, hqb⟩
  | cons t ts ih =>
    have hts : (ts.map Timer.id).Nodup := (List.nodup_cons.mp (by simpa using hexnd)).2
    have htid : t.id ∉ ts.map Timer.id := (List.nodup_cons.mp (by simpa using hexnd)).1
    cases h : t.interval_ms with
    | none =>
      rw [show rescheduleIntervals nr (t :: ts) q = rescheduleIntervals nr ts q by
        simp [rescheduleIntervals, h]]
      exact ih hnd hts (fun s hs => hdisj s (List.mem_cons_of_mem _ hs))
        (fun s hs => hexb s (List.mem_cons_of_mem _ hs)) hqb
    | some i =>
      rw [show rescheduleIntervals nr (t :: ts) q
            = rescheduleIntervals nr ts (q.add_timer nr i true t.callback (some t.id)).2 by
        simp [rescheduleIntervals, h]]
      have hperm := (insertTimer_perm
        (⟨t.id, nr + i, t.callback, some i⟩ : Timer) q.timers).map Timer.id
      have hnd' : (((q.add_timer nr i true t.callback (some t.id)).2).timers.map
          Timer.id).Nodup := by
        refine hperm.nodup_iff.mpr ?_
        refine List.nodup_cons.mpr ⟨?_, hnd⟩
        intro hc
        rcases List.mem_map.mp hc with ⟨u, hu, hub⟩
        exact hdisj t (List.mem_cons_self t ts) u hu hub.symm
      have hdisj' : ∀ s ∈ ts, ∀ u ∈ ((q.add_timer nr i true t.callback (some t.id)).2).timers,
          s.id ≠ u.id := by
        intro s hs u hu
        rcases mem_insertTimer.mp hu with rfl | hu
        · intro hc
          exact htid (hc ▸ List.mem_map_of_mem Timer.id hs)
        · exact hdisj s (List.mem_cons_of_mem _ hs) u hu
      have hqb' : ∀ u ∈ ((q.add_timer nr i true t.callback (some t.id)).2).timers,
          0 < u.id ∧ u.id < q.next_id := by
        intro u hu
        rcases mem_insertTimer.mp hu with rfl | hu
        · exact hexb t (List.mem_cons_self t ts)
        · exact hqb u hu
      exact ih hnd' hts hdisj' (fun s hs => hexb s (List.mem_cons_of_mem _ hs)) hqb'

theorem queueWF_applyOp {q : TimerQueue} (h : QueueWF q) (op : QueueOp) :
    QueueWF (applyOp q op) := by
  obtain ⟨hb, hnd, hone⟩ := h
  cases op with
  | register now d rep cb =>
    refine ⟨?_, ?_, Nat.le_succ_of_le hone⟩
    · intro t ht
      rcases mem_insertTimer.mp ht with rfl | ht
      · exact ⟨Nat.lt_of_lt_of_le Nat.zero_lt_one hone, Nat.lt_succ_self _⟩
      · exact ⟨(hb t ht).1, Nat.lt_succ_of_lt (hb t ht).2⟩
    · refine ((insertTimer_perm _ _).map Timer.id).nodup_iff.mpr ?_
      refine List.nodup_cons.mpr ⟨?_, hnd⟩
      intro hc
      rcases List.mem_map.mp hc with ⟨u, hu, hub⟩
      exact Nat.ne_of_lt (hb u hu).2 hub
  | clear j =>
    refine ⟨?_, ?_, hone⟩
    · exact fun t ht => hb t (List.mem_of_mem_filter ht)
    · exact hnd.sublist ((List.filter_sublist _).map Timer.id)
  | tick nd nr =>
    have hpart : q.timers = (q.get_expired_timers nd).1 ++ (q.get_expired_timers nd).2.timers :=
      (List.takeWhile_append_dropWhile _ _).symm
    have hnd2 : ((q.get_expired_timers nd).1.map Timer.id
        ++ (q.get_expired_timers nd).2.timers.map Timer.id).Nodup := by
      rw [← List.map_append, ← hpart]; exact hnd
    rcases List.nodup_append.mp hnd2 with ⟨hexnd, hrestnd, hdisjids⟩
    have hdisj : ∀ t ∈ (q.get_expired_timers nd).1,
        ∀ u ∈ (q.get_expired_timers nd).2.timers, t.id ≠ u.id := by
      intro t ht u hu hc
      exact hdisjids (List.mem_map_of_mem Timer.id ht) (hc ▸ List.mem_map_of_mem Timer.id hu)
    have hexb : ∀ t ∈ (q.get_expired_timers nd).1, 0 < t.id ∧ t.id < q.next_id :=
      fun t ht => hb t ((List.takeWhile_sublist _).subset ht)
    have hrestb : ∀ u ∈ (q.get_expired_timers nd).2.timers, 0 < u.id ∧ u.id < q.next_id :=
      fun u hu => hb u ((List.dropWhile_sublist _).subset hu)
    have := @rescheduleIntervals_wf nr (q.get_expired_timers nd).1
      (q.get_expired_timers nd).2 hrestnd hexnd hdisj hexb hrestb
    refine ⟨?_, this.1, by simpa [applyOp, process_timers_next_id] using hone⟩
    intro t ht
    have := this.2 t ht
    simpa [applyOp, process_timers_next_id] using this

theorem queueWF_applyOps {q : TimerQueue} (h : QueueWF q) (ops : List QueueOp) :
    QueueWF (applyOps q ops) := by
  induction ops generalizing q with
  | nil => exact h
  | cons op ops ih => exact ih (queueWF_applyOp h op)

theorem next_id_mono_applyOp (q : TimerQueue) (op : QueueOp) :
    q.next_id ≤ (applyOp q op).next_id := by
  cases op with
  | register now d rep cb => exact Nat.le_succ _
  | clear j => exact Nat.le_refl _
  | tick nd nr => simp [applyOp, process_timers_next_id]

theorem next_id_mono_applyOps (q : TimerQueue) (ops : List QueueOp) :
    q.next_id ≤ (applyOps q ops).next_id := by
  induction ops generalizing q with
  | nil => exact Nat.le_refl _
  | cons op ops ih =>
    exact Nat.le_trans (next_id_mono_applyOp q op) (ih (applyOp q op))

/-- Claim C8: every queue reachable from a well-formed queue is well-formed
— queued ids are pairwise-distinct positive integers strictly below the
allocator counter; a fresh registration returns the current counter value,
which is strictly above every id present in the queue, and bumps the
counter; the counter never decreases along a run, so freshly allocated ids
are strictly increasing and never repeat a previously allocated id; only a
tick's interval-reschedule path re-inserts an existing id.  The initial
queue is well-formed. -/
theorem timer_queue_id_invariants (q : TimerQueue) (ops : List QueueOp)
    (h : QueueWF q) :
    QueueWF (applyOps q ops)
    ∧ q.next_id ≤ (applyOps q ops).next_id
    ∧ (∀ now d rep cb, (q.add_timer now d rep cb none).1 = q.next_id
        ∧ (q.add_timer now d rep cb none).2.next_id = q.next_id + 1
        ∧ ∀ t ∈ q.timers, t.id < (q.add_timer now d rep cb none).1)
    ∧ QueueWF TimerQueue.new :=
  ⟨queueWF_applyOps h ops, next_id_mono_applyOps q ops,
    fun _ _ _ _ => ⟨rfl, rfl, fun t ht => (h.1 t ht).2⟩,
    by decide⟩

/-- Witness for C8 at a concrete input: the queue reached from a fresh
queue by two registrations, a tick at instant 10 (which fires the one-shot
and reschedules the interval), and a cancellation is well-formed. -/
theorem timer_queue_id_invariants_witness :
    QueueWF (applyOps TimerQueue.new
      [.register 0 5 false (.Code "a()"), .register 0 3 true (.Code "b()"),
        .tick 10 10, .clear 1]) :=
  (timer_queue_id_invariants TimerQueue.new
    [.register 0 5 false (.Code "a()"), .register 0 3 true (.Code "b()"),
      .tick 10 10, .clear 1] (by decide)).1

/-- A guest JavaScript value as observed by the timer entry points.  The
model keeps exactly what the source inspects: `is_function()`,
`as_number()` (JS numbers are modelled as integers; the source's
`as u32` cast and `.max(0.0)` clamp are modelled by `Int.toNat`), and the
rendering used by `val_to_string`. -/
inductive JSVal where
  | undefined
  | number (n : Int)
  | str (s : String)
  | callable (source : String)
deriving DecidableEq, Repr

/-- Rust `Value::is_function()`. -/
def JSVal.is_function : JSVal → Bool
  | .callable _ => true
  | _ => false

/-- Rust `Value::as_number()`. -/
def JSVal.as_number : JSVal → Option Int
  | .number n => some n
  | _ => none

/-- Rust `val_to_string` — the string rendering of the callback argument (used
as the `Code` payload when the argument is not a function). -/
def val_to_string : JSVal → String
  | .undefined => "undefined"
  | .number n => toString n
  | .str s => s
  | .callable src => src

/-- Rust `set_timeout` (`timers/mod.rs`): an empty argument list is an error;
otherwise the callback is the stored-callable marker when `args[0]` is a
function and its string rendering as source text otherwise, the delay is
`args[1].as_number().unwrap_or(0.0).max(0.0) as u32` (0 when absent), and
a one-shot timer is registered on the allocator path, returning its id as
a number. -/
def set_timeout (q : TimerQueue) (now : Nat) (args : List JSVal) :
    Except String (JSVal × TimerQueue) :=
  match args with
  | [] => .error "setTimeout requires at least 1 argument"
  | a0 :: rest =>
    let callback := if a0.is_function then TimerCallback.Function
      else TimerCallback.Code (val_to_string a0)
    let delay_ms : Nat := match rest with
      | [] => 0
      | a1 :: _ => (max (a1.as_number.getD 0) 0).toNat
    let r := q.add_timer now delay_ms false callback none
    .ok (.number (Int.ofNat r.1), r.2)

/-- Rust `clear_timeout` (`timers/mod.rs`): an empty argument list returns
`undefined` with no error; otherwise the id is
`args[0].as_number().unwrap_or(0.0) as u32` (the saturating cast is
`Int.toNat`) and the timer, if present, is removed.  Returns `undefined`. -/
def clear_timeout (q : TimerQueue) (args : List JSVal) :
    Except String (JSVal × TimerQueue) :=
  match args with
  | [] => .ok (.undefined, q)
  | a0 :: _ =>
    let timer_id : Nat := (a0.as_number.getD 0).toNat
    let r := q.remove_timer timer_id
    .ok (.undefined, r.2)

/-- Rust `set_interval` (`timers/mod.rs`): as `set_timeout` but the timer
repeats and the error message names `setInterval`. -/
def set_interval (q : TimerQueue) (now : Nat) (args : List JSVal) :
    Except String (JSVal × TimerQueue) :=
  match args with
  | [] => .error "setInterval requires at least 1 argument"
  | a0 :: rest =>
    let callback := if a0.is_function then TimerCallback.Function
      else TimerCallback.Code (val_to_string a0)
    let interval_ms : Nat := match rest with
      | [] => 0
      | a1 :: _ => (max (a1.as_number.getD 0) 0).toNat
    let r := q.add_timer now interval_ms true callback none
    .ok (.number (Int.ofNat r.1), r.2)

/-- Rust `clear_interval` (`timers/mod.rs`): identical queue behaviour to
`clear_timeout`. -/
def clear_interval (q : TimerQueue) (args : List JSVal) :
    Except String (JSVal × TimerQueue) :=
  match args with
  | [] => .ok (.undefined, q)
  | a0 :: _ =>
    let timer_id : Nat := (a0.as_number.getD 0).toNat
    let r := q.remove_timer timer_id
    .ok (.undefined, r.2)

/-- Claim C10: with an empty argument list, `clearTimeout` and
`clearInterval` succeed and return `undefined`, while `setTimeout` and
`setInterval` fail with an error stating at least 1 argument is
required. -/
theorem timer_globals_arity_spec (q : TimerQueue) (now : Nat) :
    clear_timeout q [] = .ok (.undefined, q)
    ∧ clear_interval q [] = .ok (.undefined, q)
    ∧ set_timeout q now [] = .error "setTimeout requires at least 1 argument"
    ∧ set_interval q now [] = .error "setInterval requires at least 1 argument" :=
  ⟨rfl, rfl, rfl, rfl⟩

/-- The plugin configuration (`plugin-api/src/config.rs`): the nested
`javy::Config` (`runtime_config`) is represented by the one toggle the
plugin API sets on it, `timers`; the remaining fields mirror the Rust
struct. -/
structure Config where
  timers : Bool
  event_loop : Bool
  wait_for_completion_flag : Bool
  wait_timeout_ms : Option Nat
deriving DecidableEq, Repr

/-- The process-wide state installed by a successful `initialize_runtime`:
the statics `EVENT_LOOP_ENABLED`, `WAIT_FOR_COMPLETION` and
`WAIT_TIMEOUT_MS`, plus the `javy::Runtime` built from the runtime config
(represented by its `timers` toggle).  A value of this type exists only
when initialization succeeded. -/
structure PluginGlobals where
  event_loop_enabled : Bool
  wait_for_completion_enabled : Bool
  wait_timeout_ms : Option Nat
  runtime_timers : Bool
deriving DecidableEq, Repr

/-- Rust `initialize_runtime` (`plugin-api/src/lib.rs`): validate that
`wait_for_completion` implies `event_loop` — bailing with the descriptive
error before any runtime is built — then create the runtime and install
the globals. -/
def initialize_runtime (config : Config) : Except String PluginGlobals :=
  if config.wait_for_completion_flag && !config.event_loop then
    .error "wait_for_completion requires event_loop to be enabled"
  else
    .ok { event_loop_enabled := config.event_loop,
          wait_for_completion_enabled := config.wait_for_completion_flag,
          wait_timeout_ms := config.wait_timeout_ms,
          runtime_timers := config.timers }

/-- Whether `small` occurs at the start of `hay` (character lists). -/
def leadsWith : List Char → List Char → Bool
  | [], _ => true
  | _ :: _, [] => false
  | a :: as, b :: bs => a == b && leadsWith as bs

/-- Whether `needle` occurs anywhere inside `hay` (character lists). -/
def containsChars : List Char → List Char → Bool
  | [], needle => needle.isEmpty
  | h :: t, needle => leadsWith needle (h :: t) || containsChars t needle

/-- Whether the string `s` mentions `flag` as a substring. -/
def mentionsFlag (s flag : String) : Bool :=
  containsChars s.data flag.data

/-- Claim C3: a configuration with `wait_for_completion` set and
`event_loop` unset is rejected by `initialize_runtime` with a descriptive
error naming both flags, and no runtime globals are produced; every
configuration satisfying `wait_for_completion → event_loop` passes
validation and installs the configured flags. -/
theorem initialize_runtime_validation (config : Config) :
    (config.wait_for_completion_flag = true → config.event_loop = false →
      initialize_runtime config
          = .error "wait_for_completion requires event_loop to be enabled"
        ∧ (∀ g, initialize_runtime config ≠ .ok g)
        ∧ mentionsFlag "wait_for_completion requires event_loop to be enabled"
            "wait_for_completion" = true
        ∧ mentionsFlag "wait_for_completion requires event_loop to be enabled"
            "event_loop" = true)
    ∧ ((config.wait_for_completion_flag = true → config.event_loop = true) →
      initialize_runtime config = .ok
        { event_loop_enabled := config.event_loop,
          wait_for_completion_enabled := config.wait_for_completion_flag,
          wait_timeout_ms := config.wait_timeout_ms,
          runtime_timers := config.timers }) := by
  constructor
  · intro h1 h2
    refine ⟨by simp [initialize_runtime, h1, h2], ?_, by decide, by decide⟩
    intro g hg
    simp [initialize_runtime, h1, h2] at hg
  · intro himp
    have hcond : (config.wait_for_completion_flag && !config.event_loop) = false := by
      cases hw : config.wait_for_completion_flag with
      | false => simp
      | true => simp [himp hw]
    simp [initialize_runtime, hcond]

/-- Witness for C3 at concrete inputs: `wait-for-completion` without
`event-loop` is rejected with the error naming both flags; the same
configuration with the event loop enabled initializes. -/
theorem initialize_runtime_validation_witness :
    initialize_runtime ⟨true, false, true, some 10⟩
      = .error "wait_for_completion requires event_loop to be enabled"
    ∧ initialize_runtime ⟨true, true, true, some 10⟩
      = .ok ⟨true, true, some 10, true⟩ :=
  ⟨((initialize_runtime_validation ⟨true, false, true, some 10⟩).1 rfl rfl).1,
   (initialize_runtime_validation ⟨true, true, true, some 10⟩).2 (fun _ => rfl)⟩

/-- Modelled from the spec: the `javy::Runtime`'s pending asynchronous
work.  The runtime's `resolve_pending_jobs` and `has_pending_jobs` are
declared in the `javy` crate outside the sources at hand; §2 and §4.4 of
the specification describe them as, respectively, one pass of "resolving
ready jobs (timers already due at this instant plus any microtasks they
produce)" and the check that "no pending jobs/timers remain".  The state
keeps the timer queue (embedded above from `queue.rs`) plus an abstract
count of ready engine microtasks. -/
structure RtState where
  queue : TimerQueue
  microtasks : Nat
deriving DecidableEq, Repr

/-- Modelled from the spec (§4.4, §2): `Runtime::resolve_pending_jobs` —
one pass of resolving ready jobs: fire the timers due at `now` (one tick
of the queue embedded above) and run the ready microtasks. -/
def resolve_pending_jobs (now : Nat) (s : RtState) : RtState :=
  { queue := (process_timers s.queue now now).2, microtasks := 0 }

/-- Modelled from the spec (§4.4): `Runtime::has_pending_jobs` — pending
work remains: a queued timer (due or not) or a ready microtask. -/
def RtState.has_pending_jobs (s : RtState) : Bool :=
  s.queue.has_pending_timers || s.microtasks != 0

/-- The static `EVENT_LOOP_ERR` of `plugin-api/src/lib.rs`, byte for byte
(a raw string with its original indentation and line breaks). -/
def EVENT_LOOP_ERR : String :=
  "\n                Pending jobs in the event queue.\n                Scheduling events is not supported when the \n                event-loop runtime config is not enabled.\n            "

/-- The settlement state of the value produced by evaluating the module or
calling the exported function: not a promise, or a promise that is
pending, fulfilled, or rejected with an engine exception message
(`Promise::result` in `handle_maybe_promise`). -/
inductive PromiseVal where
  | notPromise
  | pending
  | fulfilled
  | rejected (e : String)
deriving DecidableEq, Repr

/-- Outcome of `Promise::finish::<Value>()`, the engine's job pump driving
the promise when the event loop is enabled: a settled value,
`Err(Error::WouldBlock)` (all ready jobs handled, promise still pending),
or an engine exception. -/
inductive FinishResult where
  | value
  | wouldBlock
  | jsError (e : String)
deriving DecidableEq, Repr

/-- Rust `handle_maybe_promise` (`plugin-api/src/lib.rs`): a non-promise value
passes through; for a promise with the event loop enabled, `finish` drives
it and `WouldBlock` is success; with the event loop disabled, the promise
must already be settled — a pending result (`Promise::result() == None`)
is the descriptive pending-jobs error `EVENT_LOOP_ERR`, and a rejection
surfaces its exception. -/
def handle_maybe_promise (event_loop_enabled : Bool) (v : PromiseVal)
    (finish : FinishResult) : Except String Unit :=
  match v with
  | .notPromise => .ok ()
  | .pending | .fulfilled | .rejected _ =>
    if event_loop_enabled then
      match finish with
      | .value => .ok ()
      | .wouldBlock => .ok ()
      | .jsError e => .error e
    else
      match v with
      | .pending => .error EVENT_LOOP_ERR
      | .rejected e => .error e
      | _ => .ok ()

/-- The warning `wait_for_completion` prints when the deadline expires. -/
def timeoutWarning (timeout : Nat) : String :=
  "Warning: Timeout reached (" ++ toString timeout ++
    " ms) while waiting for async operations to complete"

/-- How the completion waiter's loop ends: all asynchronous work done;
deadline reached, with the warning it printed — both are the `Ok(())`
breaks of the source; or still polling (the model's iteration budget ran
out before the loop returned). -/
inductive WaitOutcome where
  | completed (s : RtState)
  | timedOut (warning : String) (s : RtState)
  | polling (s : RtState)
deriving DecidableEq, Repr

/-- The timeout test of `wait_for_completion`'s loop
(`if let Some(timeout) = timeout_ms { elapsed >= timeout }`): false when no
timeout is configured (infinite wait). -/
def deadlineReached (timeout_ms : Option Nat) (elapsed : Nat) : Bool :=
  match timeout_ms with
  | some t => t ≤ elapsed
  | none => false

/-- The loop of `wait_for_completion` (`plugin-api/src/lib.rs`): resolve
one pass of ready jobs; if no pending jobs remain, break `Ok`; if a
configured timeout has elapsed since the loop began, print the warning and
break `Ok`; otherwise sleep the 1 ms quantum and repeat.  Time is
explicit: the loop began at absolute instant `start`, `elapsed` counts
milliseconds since then, each sleep advances the clock by the 1 ms
quantum, and `fuel` bounds how many iterations the model unrolls. -/
def wait_loop (timeout_ms : Option Nat) (start : Nat) :
    Nat → Nat → RtState → WaitOutcome
  | 0, _, s => .polling s
  | fuel + 1, elapsed, s =>
    if (resolve_pending_jobs (start + elapsed) s).has_pending_jobs = false then
      .completed (resolve_pending_jobs (start + elapsed) s)
    else if deadlineReached timeout_ms elapsed then
      .timedOut (timeoutWarning (timeout_ms.getD 0))
        (resolve_pending_jobs (start + elapsed) s)
    else wait_loop timeout_ms start fuel (elapsed + 1)
      (resolve_pending_jobs (start + elapsed) s)

/-- Rust `wait_for_completion`: run the loop from `elapsed = 0`. -/
def wait_for_completion (timeout_ms : Option Nat) (start fuel : Nat)
    (s : RtState) : WaitOutcome :=
  wait_loop timeout_ms start fuel 0 s

/-- Rust `ensure_pending_jobs` (`plugin-api/src/lib.rs`): with the event loop
enabled, hand off to the completion waiter when `WAIT_FOR_COMPLETION` is
set (the waiter's state is returned whatever way its loop ends — the
source returns `Ok(())` whenever the waiter returns) and otherwise resolve
ready jobs exactly once; with the event loop disabled, any pending job is
the fatal `EVENT_LOOP_ERR`. -/
def ensure_pending_jobs (g : PluginGlobals) (start fuel : Nat) (s : RtState) :
    Except String RtState :=
  if g.event_loop_enabled then
    if g.wait_for_completion_enabled then
      match wait_for_completion g.wait_timeout_ms start fuel s with
      | .completed s' => .ok s'
      | .timedOut _ s' => .ok s'
      | .polling s' => .ok s'
    else
      .ok (resolve_pending_jobs start s)
  else if s.has_pending_jobs then .error EVENT_LOOP_ERR
  else .ok s

/-- Claim C1: with the event loop disabled, a returned promise still
pending, or pending jobs left in the runtime, fail with the descriptive
pending-jobs error `EVENT_LOOP_ERR`; with the event loop enabled and
wait-for-completion disabled, `ensure_pending_jobs` performs exactly one
pass of `resolve_pending_jobs` and returns without error, and timers due
in the future survive that pass unfired. -/
theorem pending_jobs_protocol (g : PluginGlobals) (start fuel : Nat) (s : RtState)
    (fin : FinishResult) :
    (g.event_loop_enabled = false →
      handle_maybe_promise g.event_loop_enabled .pending fin = .error EVENT_LOOP_ERR)
    ∧ (g.event_loop_enabled = false → s.has_pending_jobs = true →
      ensure_pending_jobs g start fuel s = .error EVENT_LOOP_ERR)
    ∧ (g.event_loop_enabled = true → g.wait_for_completion_enabled = false →
      ensure_pending_jobs g start fuel s = .ok (resolve_pending_jobs start s))
    ∧ (∀ t ∈ s.queue.timers, start < t.fire_time →
      t ∈ (resolve_pending_jobs start s).queue.timers) := by
  refine ⟨fun hdis => ?_, fun hdis hpend => ?_, fun hen hnw => ?_, fun t ht hfut => ?_⟩
  · simp [handle_maybe_promise, hdis]
  · simp [ensure_pending_jobs, hdis, hpend]
  · simp [ensure_pending_jobs, hen, hnw]
  · have hsplit : t ∈ (s.queue.get_expired_timers start).1
        ∨ t ∈ (s.queue.get_expired_timers start).2.timers := by
      have hp : s.queue.timers
          = (s.queue.get_expired_timers start).1
            ++ (s.queue.get_expired_timers start).2.timers :=
        (List.takeWhile_append_dropWhile _ _).symm
      rw [hp] at ht
      exact List.mem_append.mp ht
    rcases hsplit with hex | hrest
    · exact absurd (mem_takeWhile_fire hex) (Nat.not_le_of_lt hfut)
    · exact mem_rescheduleIntervals.mpr (Or.inl hrest)

/-- Witness for C1 at concrete inputs: with the event loop disabled, a
runtime holding one registered timer fails with `EVENT_LOOP_ERR`; with it
enabled and wait-for-completion disabled, the same runtime gets exactly
one resolution pass and no error, its future timer still queued. -/
theorem pending_jobs_protocol_witness :
    ensure_pending_jobs ⟨false, false, none, true⟩ 100 5
        ⟨⟨[⟨1, 1100, .Code "cb()", none⟩], 2⟩, 0⟩ = .error EVENT_LOOP_ERR
    ∧ ensure_pending_jobs ⟨true, false, none, true⟩ 100 5
        ⟨⟨[⟨1, 1100, .Code "cb()", none⟩], 2⟩, 0⟩
      = .ok (resolve_pending_jobs 100 ⟨⟨[⟨1, 1100, .Code "cb()", none⟩], 2⟩, 0⟩)
    ∧ (⟨1, 1100, .Code "cb()", none⟩ : Timer) ∈
        (resolve_pending_jobs 100 ⟨⟨[⟨1, 1100, .Code "cb()", none⟩], 2⟩, 0⟩).queue.timers :=
  ⟨(pending_jobs_protocol ⟨false, false, none, true⟩ 100 5
      ⟨⟨[⟨1, 1100, .Code "cb()", none⟩], 2⟩, 0⟩ .value).2.1 rfl (by decide),
   (pending_jobs_protocol ⟨true, false, none, true⟩ 100 5
      ⟨⟨[⟨1, 1100, .Code "cb()", none⟩], 2⟩, 0⟩ .value).2.2.1 rfl rfl,
   (pending_jobs_protocol ⟨true, false, none, true⟩ 100 5
      ⟨⟨[⟨1, 1100, .Code "cb()", none⟩], 2⟩, 0⟩ .value).2.2.2
      ⟨1, 1100, .Code "cb()", none⟩ (by decide) (by decide)⟩

theorem wait_loop_completed {tm : Option Nat} {start : Nat} {s s' : RtState} :
    ∀ {fuel e : Nat}, wait_loop tm start fuel e s = .completed s' →
      s'.has_pending_jobs = false := by
  intro fuel
  induction fuel generalizing s with
  | zero => intro e h; simp [wait_loop] at h
  | succ f ih =>
    intro e h
    rw [show wait_loop tm start (f + 1) e s
          = (if (resolve_pending_jobs (start + e) s).has_pending_jobs = false then
              .completed (resolve_pending_jobs (start + e) s)
            else if deadlineReached tm e then
              .timedOut (timeoutWarning (tm.getD 0)) (resolve_pending_jobs (start + e) s)
            else wait_loop tm start f (e + 1) (resolve_pending_jobs (start + e) s))
        from rfl] at h
    by_cases hp : (resolve_pending_jobs (start + e) s).has_pending_jobs = false
    · rw [if_pos hp] at h
      cases h
      exact hp
    · rw [if_neg hp] at h
      by_cases hd : deadlineReached tm e = true
      · rw [if_pos hd] at h; cases h
      · rw [if_neg hd] at h; exact ih h

theorem wait_loop_timedOut {t start : Nat} {s s' : RtState} {w : String} :
    ∀ {fuel e : Nat}, wait_loop (some t) start fuel e s = .timedOut w s' →
      w = timeoutWarning t ∧ s'.has_pending_jobs = true := by
  intro fuel
  induction fuel generalizing s with
  | zero => intro e h; simp [wait_loop] at h
  | succ f ih =>
    intro e h
    rw [show wait_loop (some t) start (f + 1) e s
          = (if (resolve_pending_jobs (start + e) s).has_pending_jobs = false then
              .completed (resolve_pending_jobs (start + e) s)
            else if deadlineReached (some t) e then
              .timedOut (timeoutWarning t) (resolve_pending_jobs (start + e) s)
            else wait_loop (some t) start f (e + 1) (resolve_pending_jobs (start + e) s))
        from rfl] at h
    by_cases hp : (resolve_pending_jobs (start + e) s).has_pending_jobs = false
    · rw [if_pos hp] at h; cases h
    · rw [if_neg hp] at h
      by_cases hd : deadlineReached (some t) e = true
      · rw [if_pos hd] at h
        cases h
        refine ⟨rfl, ?_⟩
        simpa using hp
      · rw [if_neg hd] at h; exact ih h

theorem wait_loop_no_timeout_no_warning {start : Nat} {s s' : RtState} {w : String} :
    ∀ {fuel e : Nat}, wait_loop none start fuel e s ≠ .timedOut w s' := by
  intro fuel
  induction fuel generalizing s with
  | zero => intro e h; simp [wait_loop] at h
  | succ f ih =>
    intro e h
    rw [show wait_loop none start (f + 1) e s
          = (if (resolve_pending_jobs (start + e) s).has_pending_jobs = false then
              .completed (resolve_pending_jobs (start + e) s)
            else if deadlineReached none e then
              .timedOut (timeoutWarning 0) (resolve_pending_jobs (start + e) s)
            else wait_loop none start f (e + 1) (resolve_pending_jobs (start + e) s))
        from rfl] at h
    by_cases hp : (resolve_pending_jobs (start + e) s).has_pending_jobs = false
    · rw [if_pos hp] at h; cases h
    · rw [if_neg hp, if_neg (by simp [deadlineReached])] at h
      exact ih h

theorem wait_loop_terminates {t start : Nat} {s : RtState} :
    ∀ {fuel e : Nat}, e ≤ t → t < e + fuel →
      ∀ s', wait_loop (some t) start fuel e s ≠ .polling s' := by
  intro fuel
  induction fuel generalizing s with
  | zero => intro e he hlt; omega
  | succ f ih =>
    intro e he hlt s' h
    rw [show wait_loop (some t) start (f + 1) e s
          = (if (resolve_pending_jobs (start + e) s).has_pending_jobs = false then
              .completed (resolve_pending_jobs (start + e) s)
            else if deadlineReached (some t) e then
              .timedOut (timeoutWarning t) (resolve_pending_jobs (start + e) s)
            else wait_loop (some t) start f (e + 1) (resolve_pending_jobs (start + e) s))
        from rfl] at h
    by_cases hp : (resolve_pending_jobs (start + e) s).has_pending_jobs = false
    · rw [if_pos hp] at h; cases h
    · rw [if_neg hp] at h
      by_cases hd : deadlineReached (some t) e = true
      · rw [if_pos hd] at h; cases h
      · rw [if_neg hd] at h
        have hte : ¬ t ≤ e := by simpa [deadlineReached] using hd
        exact ih (by omega) (by omega) s' h

/-- Claim C9: the completion waiter returns success in exactly two cases —
when a resolution pass leaves no pending jobs or timers, and when the
configured timeout has elapsed since the loop began, the latter after
emitting the warning (never an error: both are success outcomes, and with
a configured timeout and enough fuel the loop never stays polling); with
no timeout configured, a deadline return is impossible. -/
theorem wait_for_completion_spec (t start fuel : Nat) (s : RtState)
    (hfuel : t < fuel) :
    (∀ s', wait_for_completion (some t) start fuel s ≠ .polling s')
    ∧ (∀ tm s', wait_for_completion tm start fuel s = .completed s' →
        s'.has_pending_jobs = false)
    ∧ (∀ w s', wait_for_completion (some t) start fuel s = .timedOut w s' →
        w = timeoutWarning t ∧ s'.has_pending_jobs = true)
    ∧ (∀ w s', wait_for_completion none start fuel s ≠ .timedOut w s') :=
  ⟨fun s' => wait_loop_terminates (Nat.zero_le t) (by omega) s',
   fun _ _ h => wait_loop_completed h,
   fun _ _ h => wait_loop_timedOut h,
   fun _ _ h => wait_loop_no_timeout_no_warning h⟩

/-- Witness for C9 at a concrete input: a runtime with one timer due far
in the future and a 2 ms deadline; the waiter times out at elapsed 2 with
the warning and the timer still pending, and the loop has returned. -/
theorem wait_for_completion_spec_witness :
    timeoutWarning 2 = timeoutWarning 2
    ∧ RtState.has_pending_jobs ⟨⟨[⟨1, 1000, .Code "x()", none⟩], 2⟩, 0⟩ = true :=
  (wait_for_completion_spec 2 0 5 ⟨⟨[⟨1, 1000, .Code "x()", none⟩], 2⟩, 0⟩
    (by decide)).2.2.1 (timeoutWarning 2) ⟨⟨[⟨1, 1000, .Code "x()", none⟩], 2⟩, 0⟩
    (by decide)

end JavyModel
